import Mathlib

/-!
Verification of the agent-registry / agent-invoker / messaging-protocol core
of the PacSum-ERP repository, via a shallow embedding of
`src/agents/core/agent_loader.py`, `src/agents/core/agent_manager.py` and
`src/agents/core/communication.py` into Lean.

Conventions of the embedding:
* Python strings are `String`; Python lists are `List`; a Python `dict` is an
  association list `List (String × α)` with Python's semantics (insertion
  order preserved; assignment to an existing key replaces the value in
  place, otherwise appends at the end).
* Python exceptions are `Except`: a raised exception is `.error e`, and it
  propagates to the immediate caller exactly as in the Python code.
* The filesystem under the profiles directory is a `Store`: for each of the
  five phase directories, the list of `*.md` files it holds (name, content,
  and whether opening the file for reading succeeds).  A missing directory
  is the empty list (indistinguishable from an empty one in the code paths
  modelled here).  Paths are rendered relative to the profiles root, whose
  constant prefix is irrelevant to every claim.
* The external Anthropic text-generation call is an oracle function
  `gen : String → String → Except String String` (system prompt, user
  message); `.error` models any exception the client may raise.  The model
  name and max-token count are forwarded opaquely by the code and do not
  affect any claim, so they are not threaded through the oracle.
-/

/-! ## String utilities mirroring the Python primitives -/

/-- Data of a concatenation. -/
theorem strData_append (a b : String) : (a ++ b).data = a.data ++ b.data := by
  cases a; cases b; rfl

/-- Concatenation of strings is associative. -/
theorem strAppend_assoc (a b c : String) : (a ++ b) ++ c = a ++ (b ++ c) := by
  cases a; cases b; cases c; simp [String.append_assoc]

/-- Length of a concatenation. -/
theorem strLength_append (a b : String) : (a ++ b).length = a.length + b.length := by
  cases a; cases b; simp [String.length, String.append]

/-- Helper for the split model: `stripSep sep l = some rest` exactly when
`l = sep ++ rest`. -/
def stripSep : List Char → List Char → Option (List Char)
  | [], l => some l
  | _ :: _, [] => none
  | s :: ss, a :: l => if a = s then stripSep ss l else none

/-- Python's `str.split(sep)` for a nonempty separator: non-overlapping,
left-to-right.  The `Nat` argument is recursion fuel; every recursive call
consumes at least one character of the input while using exactly one unit of
fuel, so fuel equal to the input length (as supplied by `pySplit`) always
suffices and the `0, _ :: _` fallback is never reached. -/
def splitAuxN (sep : List Char) : Nat → List Char → List (List Char)
  | _, [] => [[]]
  | 0, _ :: _ => [[]]
  | n + 1, a :: rest =>
    match stripSep sep (a :: rest) with
    | some rem => [] :: splitAuxN sep n rem
    | none =>
      match splitAuxN sep n rest with
      | [] => [[a]]
      | h :: t => (a :: h) :: t

/-- Python `s.split(sep)` (the separators used in this codebase, `"\n"`,
`"**"`, `"Role:"` …, are all nonempty; the `[]` branch is unreachable for
them). -/
def pySplit (s : String) (sep : String) : List String :=
  match sep.data with
  | [] => [s]
  | c :: cs => (splitAuxN (c :: cs) s.data.length s.data).map (fun l => ⟨l⟩)

/-- Python `sep in s` for a nonempty `sep`: equivalent to
`len(s.split(sep)) != 1`. -/
def strContains (s pat : String) : Bool := (pySplit s pat).length != 1

/-- Python `sep.join(parts)`. -/
def joinSep (sep : String) : List String → String
  | [] => ""
  | [x] => x
  | x :: y :: rest => x ++ sep ++ joinSep sep (y :: rest)

/-- Executable substring test, used to state containment properties. -/
def hasSub : List Char → List Char → Bool
  | hay, pat =>
    pat.isPrefixOf hay ||
    match hay with
    | [] => false
    | _ :: t => hasSub t pat

/-- String-level substring test: does `s` contain `pat`? -/
def strContainsB (s pat : String) : Bool := hasSub s.data pat.data

/-- A Python dict write `m[k] = v`. -/
def dictInsert {α : Type} : List (String × α) → String → α → List (String × α)
  | [], k, v => [(k, v)]
  | p :: rest, k, v => if p.1 == k then (k, v) :: rest else p :: dictInsert rest k v

/-- A Python dict read `m.get(k)` (`some` iff `k in m`). -/
def dictGet {α : Type} : List (String × α) → String → Option α
  | [], _ => none
  | p :: rest, k => if p.1 == k then some p.2 else dictGet rest k

/-- Keys of a dict, in insertion order. -/
def dictKeys {α : Type} (m : List (String × α)) : List String := m.map (fun p => p.1)

/-! ## Agent loader (`src/agents/core/agent_loader.py`) -/

/-- The five phase directories. -/
inductive Phase
  | leadership
  | planning
  | development
  | qa
  | deployment
deriving DecidableEq, Repr

/-- Directory name of a phase. -/
def phaseName : Phase → String
  | .leadership => "leadership"
  | .planning => "planning"
  | .development => "development"
  | .qa => "qa"
  | .deployment => "deployment"

/-- The fixed scan order used both by `load_agent` and `load_all_agents`:
`['leadership', 'planning', 'development', 'qa', 'deployment']`. -/
def phaseOrder : List Phase :=
  [.leadership, .planning, .development, .qa, .deployment]

/-- One `*.md` file of a phase directory: its name, its content, and whether
opening it for reading succeeds (an unreadable file raises `OSError` at
`open`, which `load_all_agents` catches per file). -/
structure PFile where
  name : String
  content : String
  readable : Bool
deriving DecidableEq, Repr

/-- The profile store: the `*.md` listing of each phase directory, in
directory-iteration order. -/
def Store : Type := Phase → List PFile

/-- Existence check `agent_path.exists()` followed by the read, for one
phase directory: the first file in the listing with the given name. -/
def findFile (files : List PFile) (fn : String) : Option PFile :=
  files.find? (fun f => f.name == fn)

/-- Value stored in `self.agents[agent_filename]` by `load_agent`:
`{'path': …, 'phase': …, 'content': …}`. -/
structure AgentData where
  path : String
  phase : Phase
  content : String
deriving DecidableEq, Repr

/-- Entry appended to `self.agent_registry` by `load_all_agents`. -/
structure RegistryEntry where
  id : String
  filename : String
  phase : Phase
  path : String
deriving DecidableEq, Repr

/-- The loader's mutable attributes `self.agents` and `self.agent_registry`. -/
structure LoaderState where
  agentsDict : List (String × AgentData)
  registry : List RegistryEntry
deriving DecidableEq, Repr

/-- Exceptions raised by `load_agent`: `FileNotFoundError` when no phase
directory contains the filename, or an `OSError` from `open` on an
unreadable file. -/
inductive LoadErr
  | fileNotFound
  | ioError
deriving DecidableEq, Repr

/-- Path `str(profiles_dir / phase_dir / filename)`, relative to the
profiles root. -/
def mkPath (p : Phase) (fn : String) : String := phaseName p ++ "/" ++ fn

/-- The search loop of `load_agent`: try each phase directory in the given
order; on the first directory where the path exists, open and read the file
(recording it into `self.agents`) or raise if it cannot be read. -/
def loadAgentAux (store : Store) (st : LoaderState) (fn : String) :
    List Phase → Except LoadErr (String × LoaderState)
  | [] => .error .fileNotFound
  | p :: rest =>
    match findFile (store p) fn with
    | some f =>
      if f.readable then
        .ok (f.content,
          { st with agentsDict := dictInsert st.agentsDict fn ⟨mkPath p fn, p, f.content⟩ })
      else .error .ioError
    | none => loadAgentAux store st fn rest

/-- `AgentLoader.load_agent`: search all phase directories in the fixed
order, return the first match's content. -/
def load_agent (store : Store) (st : LoaderState) (fn : String) :
    Except LoadErr (String × LoaderState) :=
  loadAgentAux store st fn phaseOrder

/-- `pathlib.PurePath.stem`: the filename without its final suffix (a dot at
position 0 or at the very end does not start a suffix). -/
def stem (fn : String) : String :=
  let ds := fn.data
  match ((List.range ds.length).filter (fun i => ds.getD i ' ' = '.')).getLast? with
  | some i => if 0 < i ∧ i < ds.length - 1 then ⟨ds.take i⟩ else fn
  | none => fn

/-- Result of `load_all_agents`: the returned `agents` dict (stem →
content) together with the loader state. -/
structure ScanResult where
  agents : List (String × String)
  state : LoaderState
deriving DecidableEq, Repr

/-- Body of the inner loop of `load_all_agents` for one globbed file: call
`load_agent`, record the content under the stem, append a registry entry;
on an exception, print and continue with the state unchanged. -/
def scanFile (store : Store) (p : Phase) (acc : ScanResult) (f : PFile) : ScanResult :=
  match load_agent store acc.state f.name with
  | .ok (content, st') =>
    { agents := dictInsert acc.agents (stem f.name) content,
      state := { st' with
        registry := st'.registry ++
          [⟨stem f.name, f.name, p, mkPath p f.name⟩] } }
  | .error _ => acc

/-- Inner loop of `load_all_agents` over one phase directory's `*.md` glob. -/
def scanPhase (store : Store) (acc : ScanResult) (p : Phase) : ScanResult :=
  (store p).foldl (scanFile store p) acc

/-- `AgentLoader.load_all_agents`, started on a freshly constructed loader
(empty `self.agents` and `self.agent_registry`). -/
def load_all_agents (store : Store) : ScanResult :=
  phaseOrder.foldl (scanPhase store) ⟨[], ⟨[], []⟩⟩

/-- `AgentLoader.get_agent_by_phase`. -/
def get_agent_by_phase (st : LoaderState) (phase : Phase) : List RegistryEntry :=
  st.registry.filter (fun a => a.phase = phase)

/-! ## Metadata extraction (`AgentLoader.extract_agent_metadata`) -/

/-- The metadata dictionary built by `extract_agent_metadata`; `none` is
Python `None` (field explicitly absent). -/
structure AgentMetadata where
  role : Option String
  tier : Option String
  specialty : Option String
  personality : Option String
  collaborates_with : List String
deriving DecidableEq, Repr

/-- The initial metadata dictionary (all fields absent). -/
def emptyMetadata : AgentMetadata :=
  { role := none, tier := none, specialty := none, personality := none,
    collaborates_with := [] }

/-- Python list indexing `l[i]` for `i ≥ 0`: raises `IndexError` when out of
range. -/
def pyIdx (l : List String) (i : Nat) : Except String String :=
  match l.get? i with
  | some x => .ok x
  | none => .error "IndexError: list index out of range"

/-- Python `parts[-2]`: the second-to-last element, `IndexError` when the
list has fewer than two elements. -/
def pyIdxNeg2 (parts : List String) : Except String String :=
  if 2 ≤ parts.length then pyIdx parts (parts.length - 2) else
    .error "IndexError: list index out of range"

/-- One iteration of the `for i, line in enumerate(lines)` loop of
`extract_agent_metadata` (the `if/elif` chain). -/
def extractStep (lines : List String) (md : AgentMetadata) (i : Nat) (line : String) :
    Except String AgentMetadata :=
  if strContains line "Role:" && strContains line "**" then do
    let v ← pyIdxNeg2 (pySplit line "**")
    pure { md with role := some v }
  else if strContains line "Tier:" && strContains line "**" then do
    let v ← pyIdxNeg2 (pySplit line "**")
    pure { md with tier := some v }
  else if strContains line "Specialty:" && strContains line "**" then do
    let v ← pyIdxNeg2 (pySplit line "**")
    pure { md with specialty := some v }
  else if strContains line "PERSONALITY" then
    if i + 1 < lines.length then do
      let nxt ← pyIdx lines (i + 1)
      pure { md with personality := some nxt.trim }
    else pure md
  else pure md

/-- `AgentLoader.extract_agent_metadata`: split into lines, scan the lines
left to right.  (`String.trim` stands in for Python `str.strip`; the
difference in the exact whitespace sets is irrelevant to every claim.) -/
def extract_agent_metadata (content : String) : Except String AgentMetadata :=
  (pySplit content "\n").enum.foldlM
    (fun md p => extractStep (pySplit content "\n") md p.1 p.2) emptyMetadata

/-! ## Agent manager (`src/agents/core/agent_manager.py`) -/

/-- The external text-generation capability: system prompt and user message
in, generated text out; `.error msg` models any exception raised by the
client call (its `str(e)`). -/
def GenFn : Type := String → String → Except String String

/-- The manager state relevant to invocation: `self.agents` (the stem →
profile-content dict produced by `load_agents`) and whether `self.client`
is configured (an API key was available). -/
structure Manager where
  agents : List (String × String)
  hasClient : Bool

/-- Exceptions raised by `invoke_agent`, with the exact `str(e)` text kept
for the `f"Error: {str(e)}"` formatting of the batch operations. -/
inductive InvokeErr
  | configError
  | notFound (agentId : String)
  | transport (msg : String)
deriving DecidableEq, Repr

/-- Python `str(e)` of an `invoke_agent` exception. -/
def errMsg : InvokeErr → String
  | .configError => "Claude API key not configured. Set ANTHROPIC_API_KEY environment variable."
  | .notFound a => "Agent not found: " ++ a
  | .transport m => m

/-- The fixed system-prompt template of `invoke_agent`. -/
def system_prompt_of (profile : String) : String :=
  "You are an AI agent with the following profile:\n\n" ++ profile ++
    "\n\nFollow the instructions and personality defined in your profile. Maintain consistency with your role, expertise, and communication style."

/-- `AgentManager.invoke_agent`: client check first, then registry lookup,
then the external call.  (The model name and max-token count are forwarded
to the client unchanged and affect nothing modelled here.) -/
def invoke_agent (gen : GenFn) (m : Manager) (agentId task : String) :
    Except InvokeErr String :=
  if !m.hasClient then .error .configError
  else
    match dictGet m.agents agentId with
    | none => .error (.notFound agentId)
    | some profile =>
      match gen (system_prompt_of profile) task with
      | .ok t => .ok t
      | .error e => .error (.transport e)

/-- The string stored for one agent by the batch loops (`try/except` body):
the response on success, `f"Error: {str(e)}"` on any exception. -/
def resultStr (gen : GenFn) (m : Manager) (agentId task : String) : String :=
  match invoke_agent gen m agentId task with
  | .ok r => r
  | .error e => "Error: " ++ errMsg e

/-- `AgentManager.invoke_multiple_agents`: sequential fan-out, each per-agent
exception converted into an inline error string. -/
def invoke_multiple_agents (gen : GenFn) (m : Manager) (agents : List String)
    (task : String) : List (String × String) :=
  agents.foldl (fun responses agentId => dictInsert responses agentId
    (resultStr gen m agentId task)) []

/-- Result record of `collaborative_task`. -/
structure CollabResult where
  primary_agent : String
  supporting_agents : List String
  task : String
  primary_response : Option String
  supporting_responses : List (String × String)

/-- The combined-context block built from the supporting responses:
`"\n\n".join(f"Input from {agent_id}:\n{response}" …)`. -/
def supportingContext (sup : List (String × String)) : String :=
  joinSep "\n\n" (sup.map (fun p => "Input from " ++ p.1 ++ ":\n" ++ p.2))

/-- The combined task text handed to the primary agent. -/
def combinedTask (task : String) (sup : List (String × String)) : String :=
  task ++ "\n\nSupporting agent inputs:\n" ++ supportingContext sup ++
    "\n\nPlease provide your response as the primary agent, integrating the supporting input."

/-- `AgentManager.collaborative_task`, instrumented with a trace of the
`invoke_agent` attempts: the trace records, in call order, the
`(agent_id, task)` argument pair of every `invoke_agent` call issued. -/
def collaborative_task_tr (gen : GenFn) (m : Manager) (primary : String)
    (supporting : List String) (task : String) :
    CollabResult × List (String × String) :=
  let (sup, tr) := supporting.foldl
    (fun acc agentId =>
      (dictInsert acc.1 agentId (resultStr gen m agentId task), acc.2 ++ [(agentId, task)]))
    (([] : List (String × String)), ([] : List (String × String)))
  let combined := combinedTask task sup
  let primaryResp := resultStr gen m primary combined
  ({ primary_agent := primary, supporting_agents := supporting, task := task,
     primary_response := some primaryResp, supporting_responses := sup },
   tr ++ [(primary, combined)])

/-- `AgentManager.collaborative_task` (the returned dictionary). -/
def collaborative_task (gen : GenFn) (m : Manager) (primary : String)
    (supporting : List String) (task : String) : CollabResult :=
  (collaborative_task_tr gen m primary supporting task).1

/-! ## Messaging protocol (`src/agents/core/communication.py`) -/

/-- Priority levels (`enum Priority`). -/
inductive Priority
  | critical
  | high
  | medium
  | low
deriving DecidableEq, Repr

/-- Python `.value` of a priority. -/
def Priority.val : Priority → String
  | .critical => "Critical"
  | .high => "High"
  | .medium => "Medium"
  | .low => "Low"

/-- Status values (`enum Status`). -/
inductive Status
  | accepted
  | rejected
  | inProgress
  | completed
  | blocked
deriving DecidableEq, Repr

/-- Python `.value` of a status. -/
def Status.val : Status → String
  | .accepted => "Accepted"
  | .rejected => "Rejected"
  | .inProgress => "In Progress"
  | .completed => "Completed"
  | .blocked => "Blocked"

/-- Dataclass `AgentRequest`. -/
structure AgentRequest where
  from_agent : String
  to_agent : String
  priority : Priority
  context : String
  request : String
  deliverable : String
  timeline : String
deriving DecidableEq, Repr

/-- Dataclass `AgentResponse` (optional fields default to `None`). -/
structure AgentResponse where
  from_agent : String
  to_agent : String
  status : Status
  estimated_completion : String
  questions : Option String := none
  notes : Option String := none
deriving DecidableEq, Repr

/-- `AgentRequest.to_markdown`. -/
def AgentRequest.to_markdown (r : AgentRequest) : String :=
  "=== AGENT REQUEST ===\nFROM: " ++ r.from_agent ++
    "\nTO: " ++ r.to_agent ++
    "\nPRIORITY: " ++ r.priority.val ++
    "\nCONTEXT: " ++ r.context ++
    "\nREQUEST: " ++ r.request ++
    "\nDELIVERABLE: " ++ r.deliverable ++
    "\nTIMELINE: " ++ r.timeline ++
    "\n=== END REQUEST ==="

/-- Python truthiness of an optional-string field: `None` and `""` are
falsy, every other string is truthy. -/
def truthy : Option String → Bool
  | none => false
  | some s => !(s == "")

/-- Content of an optional field when rendered (only consulted when the
field is truthy). -/
def optVal : Option String → String
  | none => ""
  | some s => s

/-- `AgentResponse.to_markdown`: the two optional lines are appended only
when the field is truthy (`if self.questions:` / `if self.notes:`). -/
def AgentResponse.to_markdown (r : AgentResponse) : String :=
  let md := "=== AGENT RESPONSE ===\nFROM: " ++ r.from_agent ++
    "\nTO: " ++ r.to_agent ++
    "\nSTATUS: " ++ r.status.val ++
    "\nESTIMATED_COMPLETION: " ++ r.estimated_completion
  let md := if truthy r.questions then md ++ "\nQUESTIONS: " ++ optVal r.questions else md
  let md := if truthy r.notes then md ++ "\nNOTES: " ++ optVal r.notes else md
  md ++ "\n=== END RESPONSE ==="

/-- Hexadecimal digit for `\uXXXX` escapes. -/
def hexDigit (n : Nat) : Char :=
  if n < 10 then Char.ofNat (48 + n) else Char.ofNat (87 + n)

/-- Four-digit hexadecimal rendering of a code unit. -/
def hex4 (n : Nat) : String :=
  ⟨[hexDigit (n / 4096 % 16), hexDigit (n / 256 % 16), hexDigit (n / 16 % 16), hexDigit (n % 16)]⟩

/-- `json.dumps` escaping of one character (default `ensure_ascii=True`:
backslash, quote and the short control escapes, `\uXXXX` for other control
and all non-ASCII characters, surrogate pairs above the BMP). -/
def jsonEscapeChar (c : Char) : String :=
  if c = '\\' then "\\\\"
  else if c = '"' then "\\\""
  else if c = '\n' then "\\n"
  else if c = '\t' then "\\t"
  else if c = '\r' then "\\r"
  else if c.val < 32 then "\\u" ++ hex4 c.toNat
  else if c.toNat < 127 then ⟨[c]⟩
  else if c.toNat < 65536 then "\\u" ++ hex4 c.toNat
  else
    "\\u" ++ hex4 (55296 + (c.toNat - 65536) / 1024) ++
      "\\u" ++ hex4 (56320 + (c.toNat - 65536) % 1024)

/-- `json.dumps` rendering of a string value. -/
def jsonStr (s : String) : String :=
  "\"" ++ joinSep "" (s.data.map jsonEscapeChar) ++ "\""

/-- A JSON value appearing in the serialized records: a string or `null`
(an absent optional field). -/
inductive JVal
  | s (v : String)
  | null

/-- `json.dumps` rendering of one value. -/
def JVal.render : JVal → String
  | .s v => jsonStr v
  | .null => "null"

/-- `json.dumps(obj, indent=2)` for a flat string/None-valued dict, in
insertion order. -/
def dumpsObj (l : List (String × JVal)) : String :=
  "\x7b\n" ++ joinSep ",\n" (l.map (fun p => "  " ++ jsonStr p.1 ++ ": " ++ p.2.render)) ++ "\n\x7d"

/-- JSON rendering of an optional field (`None` → `null`). -/
def optJVal : Option String → JVal
  | none => .null
  | some s => .s s

/-- `AgentRequest.to_json`: `now` is `datetime.now().isoformat()` captured
at serialization time. -/
def AgentRequest.to_json (r : AgentRequest) (now : String) : String :=
  dumpsObj
    [("from_agent", .s r.from_agent),
     ("to_agent", .s r.to_agent),
     ("priority", .s r.priority.val),
     ("context", .s r.context),
     ("request", .s r.request),
     ("deliverable", .s r.deliverable),
     ("timeline", .s r.timeline),
     ("created_at", .s now)]

/-- `AgentResponse.to_json`: `now` is `datetime.now().isoformat()` captured
at serialization time. -/
def AgentResponse.to_json (r : AgentResponse) (now : String) : String :=
  dumpsObj
    [("from_agent", .s r.from_agent),
     ("to_agent", .s r.to_agent),
     ("status", .s r.status.val),
     ("estimated_completion", .s r.estimated_completion),
     ("questions", optJVal r.questions),
     ("notes", optJVal r.notes),
     ("created_at", .s now)]

/-! ## General lemmas about the utility layer -/

/-- The empty string is a right identity of concatenation. -/
theorem strAppend_empty (a : String) : a ++ "" = a := by
  cases a; simp [String.append]

/-- The empty string is a left identity of concatenation. -/
theorem strEmpty_append (a : String) : "" ++ a = a := by
  cases a; simp [String.append]

/-- The split model never returns the empty list. -/
theorem splitAuxN_ne_nil (sep : List Char) : ∀ n l, splitAuxN sep n l ≠ [] := by
  intro n
  induction n with
  | zero => intro l; cases l <;> simp [splitAuxN]
  | succ n ih =>
    intro l
    cases l with
    | nil => simp [splitAuxN]
    | cons a rest =>
      simp only [splitAuxN]
      cases stripSep sep (a :: rest) with
      | some rem => simp
      | none =>
        cases h : splitAuxN sep n rest with
        | nil => simp
        | cons hh tt => simp

/-- Python `split` never returns an empty list. -/
theorem pySplit_ne_nil (s sep : String) : pySplit s sep ≠ [] := by
  unfold pySplit
  cases h : sep.data with
  | nil => simp
  | cons c cs =>
    simp only [ne_eq, List.map_eq_nil_iff]
    exact splitAuxN_ne_nil (c :: cs) s.data.length s.data

/-- A dict read right after writing the same key. -/
theorem dictGet_insert_self {α : Type} (m : List (String × α)) (k : String) (v : α) :
    dictGet (dictInsert m k v) k = some v := by
  induction m with
  | nil => simp [dictInsert, dictGet]
  | cons p rest ih =>
    by_cases hp : p.1 == k
    · simp [dictInsert, dictGet, hp]
    · simp [dictInsert, dictGet, hp, ih]

/-- A dict write leaves other keys' values unchanged. -/
theorem dictGet_insert_other {α : Type} (m : List (String × α)) (k k' : String) (v : α)
    (hne : k ≠ k') : dictGet (dictInsert m k v) k' = dictGet m k' := by
  induction m with
  | nil => simp [dictInsert, dictGet, hne]
  | cons p rest ih =>
    by_cases hp : p.1 == k
    · have h1 : p.1 = k := eq_of_beq hp
      simp [dictInsert, dictGet, hp, h1, hne]
    · simp [dictInsert, dictGet, hp, ih]

/-- Keys after a dict write: unchanged when the key is present, appended
otherwise. -/
theorem dictKeys_insert {α : Type} (m : List (String × α)) (k : String) (v : α) :
    dictKeys (dictInsert m k v) =
      if k ∈ dictKeys m then dictKeys m else dictKeys m ++ [k] := by
  induction m with
  | nil => simp [dictInsert, dictKeys]
  | cons p rest ih =>
    cases hp : p.1 == k with
    | true =>
      have h1 : p.1 = k := eq_of_beq hp
      simp [dictInsert, dictKeys, hp, h1]
    | false =>
      have h2 : ¬(k = p.1) := by
        intro hc
        rw [hc] at hp
        simp at hp
      have hd : dictInsert (p :: rest) k v = p :: dictInsert rest k v := by
        simp [dictInsert, hp]
      rw [hd]
      have hk1 : dictKeys (p :: dictInsert rest k v) = p.1 :: dictKeys (dictInsert rest k v) := rfl
      have hk2 : dictKeys (p :: rest) = p.1 :: dictKeys rest := rfl
      rw [hk1, ih, hk2]
      by_cases hm : k ∈ dictKeys rest
      · simp [hm, h2, List.mem_cons]
      · simp [hm, h2, List.mem_cons]

/-- A dict write never removes a key. -/
theorem dictKeys_mono {α : Type} (m : List (String × α)) (k k' : String) (v : α)
    (h : k' ∈ dictKeys m) : k' ∈ dictKeys (dictInsert m k v) := by
  rw [dictKeys_insert]
  by_cases hm : k ∈ dictKeys m <;> simp [hm, h]

/-- The written key is a key after a dict write. -/
theorem dictKeys_insert_self {α : Type} (m : List (String × α)) (k : String) (v : α) :
    k ∈ dictKeys (dictInsert m k v) := by
  rw [dictKeys_insert]
  by_cases hm : k ∈ dictKeys m <;> simp [hm]

/-- A dict write preserves distinctness of keys. -/
theorem dictKeys_nodup_insert {α : Type} (m : List (String × α)) (k : String) (v : α)
    (h : (dictKeys m).Nodup) : (dictKeys (dictInsert m k v)).Nodup := by
  rw [dictKeys_insert]
  by_cases hm : k ∈ dictKeys m
  · simpa [hm] using h
  · simp only [hm, if_false, ite_false]
    rw [List.nodup_append]
    exact ⟨h, List.nodup_singleton k, by simpa using hm⟩

/-- Every pair of a dict after a write is the written pair or an old pair. -/
theorem dictInsert_mem {α : Type} (m : List (String × α)) (k : String) (v : α) :
    ∀ q ∈ dictInsert m k v, q = (k, v) ∨ q ∈ m := by
  induction m with
  | nil => simp [dictInsert]
  | cons p rest ih =>
    intro q hq
    cases hp : p.1 == k with
    | true =>
      rw [show dictInsert (p :: rest) k v = (k, v) :: rest by simp [dictInsert, hp]] at hq
      rcases List.mem_cons.mp hq with h | h
      · exact Or.inl h
      · exact Or.inr (List.mem_cons_of_mem p h)
    | false =>
      rw [show dictInsert (p :: rest) k v = p :: dictInsert rest k v by simp [dictInsert, hp]] at hq
      rcases List.mem_cons.mp hq with h | h
      · exact Or.inr (by simp [h])
      · rcases ih q h with h1 | h1
        · exact Or.inl h1
        · exact Or.inr (List.mem_cons_of_mem p h1)

/-- A successful dict read returns a pair of the dict. -/
theorem dictGet_mem_pair {α : Type} (m : List (String × α)) (k : String) (v : α)
    (h : dictGet m k = some v) : (k, v) ∈ m := by
  induction m with
  | nil => simp [dictGet] at h
  | cons p rest ih =>
    obtain ⟨pk, pv⟩ := p
    cases hp : pk == k with
    | true =>
      have h1 : pk = k := eq_of_beq hp
      rw [show dictGet ((pk, pv) :: rest) k = some pv by simp [dictGet, hp]] at h
      have h2 : pv = v := by injection h
      subst h1
      subst h2
      exact List.mem_cons_self _ _
    | false =>
      rw [show dictGet ((pk, pv) :: rest) k = dictGet rest k by simp [dictGet, hp]] at h
      exact List.mem_cons_of_mem _ (ih h)

/-- A present key reads back as `some`. -/
theorem dictGet_isSome_of_mem {α : Type} (m : List (String × α)) (k : String)
    (h : k ∈ dictKeys m) : (dictGet m k).isSome := by
  induction m with
  | nil => simp [dictKeys] at h
  | cons p rest ih =>
    by_cases hp : p.1 == k
    · simp [dictGet, hp]
    · have h1 : ¬(k = p.1) := by
        intro hc
        exact hp (by simp [hc])
      simp only [dictKeys, List.map_cons, List.mem_cons] at h
      rcases h with h | h
      · exact absurd h h1
      · simpa [dictGet, hp] using ih h

/-- Containment witness: a string of the form `l ++ pat ++ r` contains
`pat`. -/
theorem hasSub_of_decomp (pat : List Char) : ∀ l r, hasSub (l ++ pat ++ r) pat = true := by
  intro l
  induction l with
  | nil =>
    intro r
    unfold hasSub
    have h1 : pat.isPrefixOf (pat ++ r) = true := by
      rw [List.isPrefixOf_iff_prefix]
      exact List.prefix_append pat r
    simp [h1]
  | cons a t ih =>
    intro r
    unfold hasSub
    rw [List.cons_append]
    simp only [Bool.or_eq_true]
    right
    exact ih r

/-- String-level containment witness. -/
theorem strContainsB_of_decomp (pat l r : String) : strContainsB (l ++ pat ++ r) pat = true := by
  unfold strContainsB
  rw [strData_append, strData_append]
  exact hasSub_of_decomp pat.data l.data r.data

/-- Any member of a joined list appears in the join surrounded by some
prefix and suffix. -/
theorem joinSep_mem_decomp (sep : String) :
    ∀ (parts : List String) (x : String), x ∈ parts →
      ∃ pre post, joinSep sep parts = pre ++ x ++ post := by
  intro parts
  induction parts with
  | nil => intro x hx; simp at hx
  | cons y rest ih =>
    intro x hx
    cases rest with
    | nil =>
      simp only [List.mem_singleton] at hx
      exact ⟨"", "", by simp [joinSep, hx, strAppend_empty, strEmpty_append]⟩
    | cons z rest' =>
      rcases List.mem_cons.mp hx with h | h
      · refine ⟨"", sep ++ joinSep sep (z :: rest'), ?_⟩
        simp [joinSep, h, strEmpty_append, strAppend_assoc]
      · rcases ih x h with ⟨pre, post, hpp⟩
        refine ⟨y ++ sep ++ pre, post, ?_⟩
        simp [joinSep, hpp, strAppend_assoc]

/-! ## Analysis of the loader -/

/-- The phase search performed by `load_agent`, abstracted from its state
effect: the first phase directory (in the given order) whose listing
contains the filename, together with the file found there. -/
def searchPhases (store : Store) (fn : String) : List Phase → Option (Phase × PFile)
  | [] => none
  | p :: rest =>
    match findFile (store p) fn with
    | some f => some (p, f)
    | none => searchPhases store fn rest

/-- First match of a filename over the fixed phase order. -/
def firstMatch (store : Store) (fn : String) : Option (Phase × PFile) :=
  searchPhases store fn phaseOrder

/-- Whether `load_agent` succeeds on a filename: some phase contains it and
the first such phase's file is readable. -/
def scanOk (store : Store) (fn : String) : Bool :=
  match firstMatch store fn with
  | some q => q.2.readable
  | none => false

/-- The `self.agents` record that a successful `load_agent` stores: the
path, phase and content of the FIRST matching phase in the fixed order. -/
def firstData (store : Store) (fn : String) : Option AgentData :=
  (firstMatch store fn).map (fun q => ⟨mkPath q.1 fn, q.1, q.2.content⟩)

/-- Characterization of the `load_agent` search loop by `searchPhases`. -/
theorem loadAgentAux_char (store : Store) (st : LoaderState) (fn : String) :
    ∀ ps, loadAgentAux store st fn ps =
      match searchPhases store fn ps with
      | none => .error .fileNotFound
      | some q =>
        if q.2.readable then
          .ok (q.2.content,
            { st with agentsDict := dictInsert st.agentsDict fn ⟨mkPath q.1 fn, q.1, q.2.content⟩ })
        else .error .ioError := by
  intro ps
  induction ps with
  | nil => rfl
  | cons p rest ih =>
    simp only [loadAgentAux, searchPhases]
    cases findFile (store p) fn with
    | some f => rfl
    | none => exact ih

/-- Characterization of `load_agent` by `firstMatch`. -/
theorem load_agent_char (store : Store) (st : LoaderState) (fn : String) :
    load_agent store st fn =
      match firstMatch store fn with
      | none => .error .fileNotFound
      | some q =>
        if q.2.readable then
          .ok (q.2.content,
            { st with agentsDict := dictInsert st.agentsDict fn ⟨mkPath q.1 fn, q.1, q.2.content⟩ })
        else .error .ioError :=
  loadAgentAux_char store st fn phaseOrder

/-- A found file is a member of the listing and has the searched name. -/
theorem findFile_mem (files : List PFile) (fn : String) (f : PFile)
    (h : findFile files fn = some f) : f ∈ files ∧ f.name = fn := by
  unfold findFile at h
  refine ⟨List.mem_of_find?_eq_some h, ?_⟩
  have h1 := List.find?_some h
  exact eq_of_beq h1

/-- If some listed phase contains the filename, the search finds a match. -/
theorem searchPhases_isSome (store : Store) (fn : String) (p : Phase) (g : PFile)
    (hg : findFile (store p) fn = some g) :
    ∀ ps, p ∈ ps → (searchPhases store fn ps).isSome := by
  intro ps
  induction ps with
  | nil => intro h; simp at h
  | cons q rest ih =>
    intro h
    cases hq : findFile (store q) fn with
    | some f => simp [searchPhases, hq]
    | none =>
      simp only [searchPhases, hq]
      rcases List.mem_cons.mp h with h1 | h1
      · subst h1
        rw [hg] at hq
        exact absurd hq (by simp)
      · exact ih h1

/-- Decomposition of a successful search: the found phase is the FIRST one
in the scanned order whose directory contains the filename. -/
theorem searchPhases_decomp (store : Store) (fn : String) :
    ∀ ps q g, searchPhases store fn ps = some (q, g) →
      findFile (store q) fn = some g ∧
        ∃ l r, ps = l ++ q :: r ∧ ∀ p' ∈ l, findFile (store p') fn = none := by
  intro ps
  induction ps with
  | nil => intro q g h; simp [searchPhases] at h
  | cons p rest ih =>
    intro q g h
    cases hp : findFile (store p) fn with
    | some f =>
      simp only [searchPhases, hp, Option.some_inj, Prod.mk.injEq] at h
      obtain ⟨h1, h2⟩ := h
      subst h1
      subst h2
      exact ⟨hp, [], rest, rfl, by simp⟩
    | none =>
      simp only [searchPhases, hp] at h
      obtain ⟨hq, l, r, hps, hl⟩ := ih q g h
      refine ⟨hq, p :: l, r, by rw [hps]; rfl, ?_⟩
      intro p' hp'
      rcases List.mem_cons.mp hp' with h1 | h1
      · rw [h1]; exact hp
      · exact hl p' h1

/-- Every phase occurs in the fixed scan order. -/
theorem phase_mem_phaseOrder (p : Phase) : p ∈ phaseOrder := by
  cases p <;> simp [phaseOrder]

/-- In an all-readable store, any filename present in some phase loads
successfully. -/
theorem scanOk_of_readable (store : Store) (fn : String) (p : Phase) (g : PFile)
    (hr : ∀ p' f', f' ∈ store p' → f'.readable = true)
    (hg : findFile (store p) fn = some g) : scanOk store fn = true := by
  have h1 : (firstMatch store fn).isSome :=
    searchPhases_isSome store fn p g hg phaseOrder (phase_mem_phaseOrder p)
  obtain ⟨⟨q, f⟩, hq⟩ := Option.isSome_iff_exists.mp h1
  unfold scanOk
  rw [hq]
  obtain ⟨hfind, -⟩ := searchPhases_decomp store fn phaseOrder q f hq
  exact hr q f (findFile_mem (store q) fn f hfind).1

/-- Effect of one scan step when the per-file load succeeds: the returned
content, recorded `self.agents` entry (keyed by filename) and the recorded
dict value all come from the FIRST matching phase, while the appended
registry entry carries the phase currently being scanned. -/
theorem scanFile_of_ok (store : Store) (p : Phase) (acc : ScanResult) (f : PFile)
    (h : scanOk store f.name = true) :
    ∃ q g, firstMatch store f.name = some (q, g) ∧
      scanFile store p acc f =
        { agents := dictInsert acc.agents (stem f.name) g.content,
          state :=
            { agentsDict :=
                dictInsert acc.state.agentsDict f.name ⟨mkPath q f.name, q, g.content⟩,
              registry := acc.state.registry ++
                [⟨stem f.name, f.name, p, mkPath p f.name⟩] } } := by
  unfold scanOk at h
  cases hm : firstMatch store f.name with
  | none => rw [hm] at h; simp at h
  | some qg =>
    obtain ⟨q, g⟩ := qg
    rw [hm] at h
    have h2 : g.readable = true := h
    refine ⟨q, g, rfl, ?_⟩
    unfold scanFile
    rw [load_agent_char, hm]
    simp only [h2, ite_true]

/-- Effect of one scan step when the per-file load raises: the exception is
caught and the whole accumulated result is unchanged. -/
theorem scanFile_of_err (store : Store) (p : Phase) (acc : ScanResult) (f : PFile)
    (h : scanOk store f.name = false) : scanFile store p acc f = acc := by
  unfold scanOk at h
  unfold scanFile
  rw [load_agent_char]
  cases hm : firstMatch store f.name with
  | none => rfl
  | some qg =>
    obtain ⟨q, g⟩ := qg
    rw [hm] at h
    have h2 : g.readable = false := h
    simp only [h2, ite_false]
    rfl

/-- Registry growth of one scan step. -/
theorem scanFile_reg_len (store : Store) (p : Phase) (acc : ScanResult) (f : PFile) :
    (scanFile store p acc f).state.registry.length =
      acc.state.registry.length + (if scanOk store f.name then 1 else 0) := by
  cases h : scanOk store f.name with
  | true =>
    obtain ⟨q, g, -, hsf⟩ := scanFile_of_ok store p acc f h
    rw [hsf]
    simp
  | false =>
    rw [scanFile_of_err store p acc f h]
    simp

/-- Registry growth over one phase directory's file list. -/
theorem scanFold_reg_len (store : Store) (p : Phase) :
    ∀ (fs : List PFile) (acc : ScanResult),
      ((fs.foldl (scanFile store p) acc)).state.registry.length =
        acc.state.registry.length +
          (fs.filter (fun f => scanOk store f.name)).length := by
  intro fs
  induction fs with
  | nil => intro acc; simp
  | cons f rest ih =>
    intro acc
    rw [List.foldl_cons, ih, scanFile_reg_len, List.filter_cons]
    cases h : scanOk store f.name with
    | true => simp only [h, if_true, ite_true, List.length_cons]; omega
    | false => simp only [h, if_false, ite_false, Bool.false_eq_true]; omega

/-- Registry growth over a list of phases. -/
theorem phasesFold_reg_len (store : Store) :
    ∀ (ps : List Phase) (acc : ScanResult),
      ((ps.foldl (scanPhase store) acc)).state.registry.length =
        acc.state.registry.length +
          (ps.map (fun p => ((store p).filter (fun f => scanOk store f.name)).length)).sum := by
  intro ps
  induction ps with
  | nil => intro acc; simp
  | cons p rest ih =>
    intro acc
    rw [List.foldl_cons, ih]
    show (scanPhase store acc p).state.registry.length + _ = _
    unfold scanPhase
    rw [scanFold_reg_len]
    simp [List.sum_cons]
    omega

/-- Total registry length of a full scan: one entry per globbed file whose
filename's first match across the phases is readable. -/
theorem load_all_reg_len (store : Store) :
    (load_all_agents store).state.registry.length =
      (phaseOrder.map
        (fun p => ((store p).filter (fun f => scanOk store f.name)).length)).sum := by
  unfold load_all_agents
  rw [phasesFold_reg_len]
  simp

/-- The five phase filters of any registry list partition it: the filtered
lengths add up to the full length. -/
theorem filter_phase_partition (l : List RegistryEntry) :
    (phaseOrder.map (fun p => (l.filter (fun a => a.phase = p)).length)).sum = l.length := by
  induction l with
  | nil => simp [phaseOrder]
  | cons e t ih =>
    cases he : e.phase <;>
      simp [phaseOrder, List.filter_cons, he] at ih ⊢ <;> omega

/-- Invariant of the `self.agents` dict during a scan: keys are distinct and
every stored record is the first-match record of its filename. -/
def DictInv (store : Store) (d : List (String × AgentData)) : Prop :=
  (dictKeys d).Nodup ∧ ∀ q ∈ d, firstData store q.1 = some q.2

/-- Writing a first-match record preserves the dict invariant. -/
theorem dictInv_insert (store : Store) (d : List (String × AgentData)) (fn : String)
    (v : AgentData) (hv : firstData store fn = some v) (h : DictInv store d) :
    DictInv store (dictInsert d fn v) := by
  refine ⟨dictKeys_nodup_insert d fn v h.1, ?_⟩
  intro q hq
  rcases dictInsert_mem d fn v q hq with h1 | h1
  · rw [h1]; exact hv
  · exact h.2 q h1

/-- One scan step preserves the dict invariant. -/
theorem scanFile_dictInv (store : Store) (p : Phase) (acc : ScanResult) (f : PFile)
    (h : DictInv store acc.state.agentsDict) :
    DictInv store (scanFile store p acc f).state.agentsDict := by
  cases hs : scanOk store f.name with
  | false => rw [scanFile_of_err store p acc f hs]; exact h
  | true =>
    obtain ⟨q, g, hfm, hsf⟩ := scanFile_of_ok store p acc f hs
    rw [hsf]
    apply dictInv_insert
    · unfold firstData
      rw [hfm]
      rfl
    · exact h

/-- A file-list fold preserves the dict invariant. -/
theorem scanFold_dictInv (store : Store) (p : Phase) :
    ∀ (fs : List PFile) (acc : ScanResult), DictInv store acc.state.agentsDict →
      DictInv store ((fs.foldl (scanFile store p) acc)).state.agentsDict := by
  intro fs
  induction fs with
  | nil => intro acc h; exact h
  | cons f rest ih =>
    intro acc h
    rw [List.foldl_cons]
    exact ih (scanFile store p acc f) (scanFile_dictInv store p acc f h)

/-- A phase-list fold preserves the dict invariant. -/
theorem phasesFold_dictInv (store : Store) :
    ∀ (ps : List Phase) (acc : ScanResult), DictInv store acc.state.agentsDict →
      DictInv store ((ps.foldl (scanPhase store) acc)).state.agentsDict := by
  intro ps
  induction ps with
  | nil => intro acc h; exact h
  | cons p rest ih =>
    intro acc h
    rw [List.foldl_cons]
    exact ih (scanPhase store acc p) (scanFold_dictInv store p (store p) acc h)

/-- The dict invariant holds after a full scan. -/
theorem load_all_dictInv (store : Store) :
    DictInv store (load_all_agents store).state.agentsDict := by
  unfold load_all_agents
  exact phasesFold_dictInv store phaseOrder _ ⟨List.nodup_nil, by simp⟩

/-- One scan step never removes a key of the `self.agents` dict. -/
theorem scanFile_keys_mono (store : Store) (p : Phase) (acc : ScanResult) (f : PFile)
    (k : String) (h : k ∈ dictKeys acc.state.agentsDict) :
    k ∈ dictKeys (scanFile store p acc f).state.agentsDict := by
  cases hs : scanOk store f.name with
  | false => rw [scanFile_of_err store p acc f hs]; exact h
  | true =>
    obtain ⟨q, g, -, hsf⟩ := scanFile_of_ok store p acc f hs
    rw [hsf]
    exact dictKeys_mono _ _ _ _ h

/-- A file-list fold never removes a key. -/
theorem scanFold_keys_mono (store : Store) (p : Phase) (k : String) :
    ∀ (fs : List PFile) (acc : ScanResult), k ∈ dictKeys acc.state.agentsDict →
      k ∈ dictKeys ((fs.foldl (scanFile store p) acc)).state.agentsDict := by
  intro fs
  induction fs with
  | nil => intro acc h; exact h
  | cons f rest ih =>
    intro acc h
    rw [List.foldl_cons]
    exact ih (scanFile store p acc f) (scanFile_keys_mono store p acc f k h)

/-- A phase-list fold never removes a key. -/
theorem phasesFold_keys_mono (store : Store) (k : String) :
    ∀ (ps : List Phase) (acc : ScanResult), k ∈ dictKeys acc.state.agentsDict →
      k ∈ dictKeys ((ps.foldl (scanPhase store) acc)).state.agentsDict := by
  intro ps
  induction ps with
  | nil => intro acc h; exact h
  | cons p rest ih =>
    intro acc h
    rw [List.foldl_cons]
    exact ih (scanPhase store acc p) (scanFold_keys_mono store p k (store p) acc h)

/-- After folding over a file list containing a successfully loadable file,
that file's name is a key of the `self.agents` dict. -/
theorem scanFold_key_present (store : Store) (p : Phase) (f : PFile)
    (hok : scanOk store f.name = true) :
    ∀ (fs : List PFile) (acc : ScanResult), f ∈ fs →
      f.name ∈ dictKeys ((fs.foldl (scanFile store p) acc)).state.agentsDict := by
  intro fs
  induction fs with
  | nil => intro acc h; simp at h
  | cons y rest ih =>
    intro acc hmem
    rw [List.foldl_cons]
    rcases List.mem_cons.mp hmem with h1 | h1
    · subst h1
      apply scanFold_keys_mono
      obtain ⟨q, g, -, hsf⟩ := scanFile_of_ok store p acc f hok
      rw [hsf]
      exact dictKeys_insert_self _ _ _
    · exact ih (scanFile store p acc y) h1

/-- After folding over a phase list containing the phase of a successfully
loadable file, that file's name is a key of the `self.agents` dict. -/
theorem phasesFold_key_present (store : Store) (p : Phase) (f : PFile)
    (hok : scanOk store f.name = true) :
    ∀ (ps : List Phase) (acc : ScanResult), p ∈ ps → f ∈ store p →
      f.name ∈ dictKeys ((ps.foldl (scanPhase store) acc)).state.agentsDict := by
  intro ps
  induction ps with
  | nil => intro acc h _; simp at h
  | cons q rest ih =>
    intro acc hmem hf
    rw [List.foldl_cons]
    rcases List.mem_cons.mp hmem with h1 | h1
    · subst h1
      apply phasesFold_keys_mono
      exact scanFold_key_present store p f hok (store p) _ hf
    · exact ih _ h1 hf

/-- After a full scan, every successfully loadable file of any phase
directory has its name among the keys of `self.agents`. -/
theorem load_all_key_present (store : Store) (p : Phase) (f : PFile)
    (hf : f ∈ store p) (hok : scanOk store f.name = true) :
    f.name ∈ dictKeys (load_all_agents store).state.agentsDict :=
  phasesFold_key_present store p f hok phaseOrder _ (phase_mem_phaseOrder p) hf

/-- The catalog record of any successfully loadable filename after a full
scan is its FIRST-match record. -/
theorem load_all_agentsDict_get (store : Store) (p : Phase) (f : PFile)
    (hf : f ∈ store p) (hok : scanOk store f.name = true) :
    dictGet (load_all_agents store).state.agentsDict f.name = firstData store f.name := by
  have hinv := load_all_dictInv store
  have hkey := load_all_key_present store p f hf hok
  have hsome := dictGet_isSome_of_mem _ _ hkey
  obtain ⟨v, hv⟩ := Option.isSome_iff_exists.mp hsome
  rw [hv]
  exact (hinv.2 (f.name, v) (dictGet_mem_pair _ _ _ hv)).symm

/-! ## Analysis of the batch invocation loops -/

/-- In a batch fold, every stored pair's value is determined by its key. -/
theorem batchFold_pairs (g : String → String) :
    ∀ (ids : List String) (init : List (String × String)),
      (∀ q ∈ init, q.2 = g q.1) →
      ∀ q ∈ ids.foldl (fun acc a => dictInsert acc a (g a)) init, q.2 = g q.1 := by
  intro ids
  induction ids with
  | nil => intro init h; exact h
  | cons a rest ih =>
    intro init h
    rw [List.foldl_cons]
    apply ih
    intro q hq
    rcases dictInsert_mem init a (g a) q hq with h1 | h1
    · rw [h1]
    · exact h q h1

/-- A batch fold never removes a key. -/
theorem batchFold_keys_mono (g : String → String) (k : String) :
    ∀ (ids : List String) (init : List (String × String)),
      k ∈ dictKeys init →
      k ∈ dictKeys (ids.foldl (fun acc a => dictInsert acc a (g a)) init) := by
  intro ids
  induction ids with
  | nil => intro init h; exact h
  | cons a rest ih =>
    intro init h
    rw [List.foldl_cons]
    exact ih _ (dictKeys_mono _ _ _ _ h)

/-- Every processed id is a key of the batch-fold result. -/
theorem batchFold_key_present (g : String → String) (aid : String) :
    ∀ (ids : List String) (init : List (String × String)), aid ∈ ids →
      aid ∈ dictKeys (ids.foldl (fun acc a => dictInsert acc a (g a)) init) := by
  intro ids
  induction ids with
  | nil => intro init h; simp at h
  | cons a rest ih =>
    intro init h
    rw [List.foldl_cons]
    rcases List.mem_cons.mp h with h1 | h1
    · subst h1
      exact batchFold_keys_mono g aid rest _ (dictKeys_insert_self _ _ _)
    · exact ih _ h1

/-- Every key of the batch-fold result was an initial key or a processed
id. -/
theorem batchFold_keys_sub (g : String → String) :
    ∀ (ids : List String) (init : List (String × String)) (k : String),
      k ∈ dictKeys (ids.foldl (fun acc a => dictInsert acc a (g a)) init) →
      k ∈ dictKeys init ∨ k ∈ ids := by
  intro ids
  induction ids with
  | nil => intro init k h; exact Or.inl h
  | cons a rest ih =>
    intro init k h
    rw [List.foldl_cons] at h
    rcases ih _ k h with h1 | h1
    · rw [dictKeys_insert] at h1
      by_cases hm : a ∈ dictKeys init
      · rw [if_pos hm] at h1
        exact Or.inl h1
      · rw [if_neg hm] at h1
        rcases List.mem_append.mp h1 with h2 | h2
        · exact Or.inl h2
        · simp only [List.mem_singleton] at h2
          exact Or.inr (by rw [h2]; exact List.mem_cons_self a rest)
    · exact Or.inr (List.mem_cons_of_mem a h1)

/-- A batch fold keeps the dict keys distinct. -/
theorem batchFold_nodup (g : String → String) :
    ∀ (ids : List String) (init : List (String × String)),
      (dictKeys init).Nodup →
      (dictKeys (ids.foldl (fun acc a => dictInsert acc a (g a)) init)).Nodup := by
  intro ids
  induction ids with
  | nil => intro init h; exact h
  | cons a rest ih =>
    intro init h
    rw [List.foldl_cons]
    exact ih _ (dictKeys_nodup_insert _ _ _ h)

/-- Reading a processed id out of a batch-fold result yields its
key-determined value. -/
theorem batchFold_get (g : String → String) (ids : List String)
    (init : List (String × String)) (hinv : ∀ q ∈ init, q.2 = g q.1)
    (aid : String) (h : aid ∈ ids) :
    dictGet (ids.foldl (fun acc a => dictInsert acc a (g a)) init) aid = some (g aid) := by
  have hkey := batchFold_key_present g aid ids init h
  have hsome := dictGet_isSome_of_mem _ _ hkey
  obtain ⟨v, hv⟩ := Option.isSome_iff_exists.mp hsome
  have hpair := dictGet_mem_pair _ _ _ hv
  have hval := batchFold_pairs g ids init hinv (aid, v) hpair
  rw [hv]
  exact congrArg some hval

/-- First component of the supporting-agents fold of `collaborative_task`:
the responses dict, identical to a plain batch fold. -/
theorem collabFold_fst (g : String → String) (task : String) :
    ∀ (ids : List String) (d0 t0 : List (String × String)),
      (ids.foldl (fun acc a => (dictInsert acc.1 a (g a), acc.2 ++ [(a, task)])) (d0, t0)).1 =
        ids.foldl (fun acc a => dictInsert acc a (g a)) d0 := by
  intro ids
  induction ids with
  | nil => intro d0 t0; rfl
  | cons a rest ih =>
    intro d0 t0
    rw [List.foldl_cons, List.foldl_cons]
    exact ih _ _

/-- Second component of the supporting-agents fold of `collaborative_task`:
the attempt trace, one entry per supporting id, in input order. -/
theorem collabFold_snd (g : String → String) (task : String) :
    ∀ (ids : List String) (d0 t0 : List (String × String)),
      (ids.foldl (fun acc a => (dictInsert acc.1 a (g a), acc.2 ++ [(a, task)])) (d0, t0)).2 =
        t0 ++ ids.map (fun a => (a, task)) := by
  intro ids
  induction ids with
  | nil => intro d0 t0; simp
  | cons a rest ih =>
    intro d0 t0
    rw [List.foldl_cons, List.map_cons]
    rw [ih]
    simp

/-- The combined task handed to the primary agent is never equal to the
original task: a nonempty instruction block is appended. -/
theorem combinedTask_ne (task : String) (sup : List (String × String)) :
    combinedTask task sup ≠ task := by
  intro h
  have h1 := congrArg String.length h
  unfold combinedTask at h1
  rw [strLength_append, strLength_append, strLength_append] at h1
  have h2 : 0 <
      ("\n\nPlease provide your response as the primary agent, integrating the supporting input." :
        String).length := by decide
  omega

/-! ## Totality of metadata extraction -/

/-- Discriminator for the exception model. -/
def exOk {ε α : Type} : Except ε α → Bool
  | .ok _ => true
  | .error _ => false

/-- An in-range Python index read succeeds. -/
theorem pyIdx_ok (l : List String) (i : Nat) (h : i < l.length) :
    ∃ x, pyIdx l i = .ok x := by
  unfold pyIdx
  cases hg : l.get? i with
  | none =>
    have := List.get?_eq_none.mp hg
    omega
  | some x => exact ⟨x, rfl⟩

/-- Reading `parts[-2]` succeeds on a list of two or more elements. -/
theorem pyIdxNeg2_ok (parts : List String) (h : 2 ≤ parts.length) :
    ∃ x, pyIdxNeg2 parts = .ok x := by
  unfold pyIdxNeg2
  rw [if_pos h]
  exact pyIdx_ok parts _ (by omega)

/-- A positive containment test means the split has at least two pieces. -/
theorem strContains_two_le (s pat : String) (h : strContains s pat = true) :
    2 ≤ (pySplit s pat).length := by
  unfold strContains at h
  rw [bne_iff_ne] at h
  have h2 : 0 < (pySplit s pat).length := List.length_pos.mpr (pySplit_ne_nil s pat)
  omega

/-- Every iteration of the metadata loop succeeds: the `'**' in line` guard
protects the `[-2]` read, and the explicit bound check protects the
next-line read after a PERSONALITY header. -/
theorem extractStep_ok (lines : List String) (md : AgentMetadata) (i : Nat) (line : String) :
    ∃ md', extractStep lines md i line = .ok md' := by
  unfold extractStep
  by_cases h1 : (strContains line "Role:" && strContains line "**") = true
  · rw [if_pos h1]
    obtain ⟨x, hx⟩ := pyIdxNeg2_ok _ (strContains_two_le _ _ (Bool.and_eq_true _ _ |>.mp h1).2)
    refine ⟨{ md with role := some x }, ?_⟩
    rw [hx]; rfl
  · rw [if_neg h1]
    by_cases h2 : (strContains line "Tier:" && strContains line "**") = true
    · rw [if_pos h2]
      obtain ⟨x, hx⟩ := pyIdxNeg2_ok _ (strContains_two_le _ _ (Bool.and_eq_true _ _ |>.mp h2).2)
      refine ⟨{ md with tier := some x }, ?_⟩
      rw [hx]; rfl
    · rw [if_neg h2]
      by_cases h3 : (strContains line "Specialty:" && strContains line "**") = true
      · rw [if_pos h3]
        obtain ⟨x, hx⟩ := pyIdxNeg2_ok _ (strContains_two_le _ _ (Bool.and_eq_true _ _ |>.mp h3).2)
        refine ⟨{ md with specialty := some x }, ?_⟩
        rw [hx]; rfl
      · rw [if_neg h3]
        by_cases h4 : strContains line "PERSONALITY" = true
        · rw [if_pos h4]
          by_cases h5 : i + 1 < lines.length
          · rw [if_pos h5]
            obtain ⟨x, hx⟩ := pyIdx_ok lines (i + 1) h5
            refine ⟨{ md with personality := some x.trim }, ?_⟩
            rw [hx]; rfl
          · rw [if_neg h5]
            exact ⟨md, rfl⟩
        · rw [if_neg h4]
          exact ⟨md, rfl⟩

/-- A monadic fold whose step never fails never fails. -/
theorem foldlM_ok {α : Type} (step : AgentMetadata → α → Except String AgentMetadata)
    (hstep : ∀ md x, ∃ md', step md x = .ok md') :
    ∀ (l : List α) (acc : AgentMetadata), ∃ res, List.foldlM step acc l = .ok res := by
  intro l
  induction l with
  | nil => intro acc; exact ⟨acc, rfl⟩
  | cons x rest ih =>
    intro acc
    obtain ⟨md', hm⟩ := hstep acc x
    obtain ⟨res, hr⟩ := ih md'
    refine ⟨res, ?_⟩
    rw [List.foldlM_cons, hm]
    exact hr

/-- Metadata extraction succeeds on every input. -/
theorem extract_ok (content : String) : ∃ md, extract_agent_metadata content = .ok md := by
  unfold extract_agent_metadata
  exact foldlM_ok _
    (fun md (p : Nat × String) => extractStep_ok (pySplit content "\n") md p.1 p.2) _ _

/-! ## Analysis of the serializations -/

/-- Joining a list extended by a final element. -/
theorem joinSep_append_last (sep x : String) :
    ∀ l, l ≠ [] → joinSep sep (l ++ [x]) = joinSep sep l ++ (sep ++ x) := by
  intro l
  induction l with
  | nil => intro h; exact absurd rfl h
  | cons y rest ih =>
    intro _
    cases rest with
    | nil => simp [joinSep, strAppend_assoc]
    | cons z rest' =>
      have h2 := ih (by simp)
      have h0 : joinSep sep ((y :: z :: rest') ++ [x]) =
          y ++ sep ++ joinSep sep ((z :: rest') ++ [x]) := rfl
      rw [h0, h2]
      show _ = (y ++ sep ++ joinSep sep (z :: rest')) ++ (sep ++ x)
      simp [strAppend_assoc]

/-- Rendering a flat JSON object whose last entry is a string value: the
output splits into a prefix independent of that value, the rendered value,
and the closing brace. -/
theorem dumpsObj_snoc (l : List (String × JVal)) (hl : l ≠ []) (k t : String) :
    dumpsObj (l ++ [(k, JVal.s t)]) =
      ("\x7b\n" ++ (joinSep ",\n" (l.map (fun p => "  " ++ jsonStr p.1 ++ ": " ++ p.2.render)) ++
        (",\n" ++ ("  " ++ jsonStr k ++ ": ")))) ++ jsonStr t ++ "\n\x7d" := by
  unfold dumpsObj
  rw [List.map_append]
  simp only [List.map_cons, List.map_nil, JVal.render]
  rw [joinSep_append_last _ _ _ (by simpa using hl)]
  simp [strAppend_assoc]

/-- The serialized request viewed as seven leading fields plus the
trailing timestamp entry. -/
theorem AgentRequest_to_json_snoc (r : AgentRequest) (now : String) :
    AgentRequest.to_json r now =
      dumpsObj ([("from_agent", .s r.from_agent), ("to_agent", .s r.to_agent),
        ("priority", .s r.priority.val), ("context", .s r.context),
        ("request", .s r.request), ("deliverable", .s r.deliverable),
        ("timeline", .s r.timeline)] ++ [("created_at", JVal.s now)]) := rfl

/-- The serialized response viewed as six leading fields plus the trailing
timestamp entry. -/
theorem AgentResponse_to_json_snoc (r : AgentResponse) (now : String) :
    AgentResponse.to_json r now =
      dumpsObj ([("from_agent", .s r.from_agent), ("to_agent", .s r.to_agent),
        ("status", .s r.status.val), ("estimated_completion", .s r.estimated_completion),
        ("questions", optJVal r.questions), ("notes", optJVal r.notes)] ++
        [("created_at", JVal.s now)]) := rfl

/-! ## Claim theorems -/

/-- C8: for every immutable AgentRequest or AgentResponse record, two calls
to toJson on the same record yield outputs that are identical except for
the created_at timestamp field, which is captured at serialization time
rather than at construction time: both outputs are the same fixed prefix
(determined by the record alone) followed by the rendered timestamp and
the same fixed suffix. -/
theorem C8_toJson_differs_only_in_timestamp (req : AgentRequest) (resp : AgentResponse)
    (t1 t2 : String) :
    (∃ pre suf, AgentRequest.to_json req t1 = pre ++ jsonStr t1 ++ suf ∧
      AgentRequest.to_json req t2 = pre ++ jsonStr t2 ++ suf) ∧
    (∃ pre suf, AgentResponse.to_json resp t1 = pre ++ jsonStr t1 ++ suf ∧
      AgentResponse.to_json resp t2 = pre ++ jsonStr t2 ++ suf) := by
  constructor
  · exact ⟨"\x7b\n" ++ (joinSep ",\n"
        ([("from_agent", JVal.s req.from_agent), ("to_agent", JVal.s req.to_agent),
          ("priority", JVal.s req.priority.val), ("context", JVal.s req.context),
          ("request", JVal.s req.request), ("deliverable", JVal.s req.deliverable),
          ("timeline", JVal.s req.timeline)].map
          (fun p => "  " ++ jsonStr p.1 ++ ": " ++ p.2.render)) ++
        (",\n" ++ ("  " ++ jsonStr "created_at" ++ ": "))), "\n\x7d",
      by rw [AgentRequest_to_json_snoc, dumpsObj_snoc _ (by simp)],
      by rw [AgentRequest_to_json_snoc, dumpsObj_snoc _ (by simp)]⟩
  · exact ⟨"\x7b\n" ++ (joinSep ",\n"
        ([("from_agent", JVal.s resp.from_agent), ("to_agent", JVal.s resp.to_agent),
          ("status", JVal.s resp.status.val),
          ("estimated_completion", JVal.s resp.estimated_completion),
          ("questions", optJVal resp.questions), ("notes", optJVal resp.notes)].map
          (fun p => "  " ++ jsonStr p.1 ++ ": " ++ p.2.render)) ++
        (",\n" ++ ("  " ++ jsonStr "created_at" ++ ": "))), "\n\x7d",
      by rw [AgentResponse_to_json_snoc, dumpsObj_snoc _ (by simp)],
      by rw [AgentResponse_to_json_snoc, dumpsObj_snoc _ (by simp)]⟩

/-- C9: extractMetadata is total: on every input string (including the
empty string and text with no label matches) it returns a metadata record
(each field populated or explicitly absent) and never raises — in the
model, the `Except`-instrumented index reads (the `[-2]` read guarded by
`'**' in line` and the next-line read guarded by `i + 1 < len(lines)`)
always succeed. -/
theorem C9_extract_total (content : String) :
    exOk (extract_agent_metadata content) = true := by
  obtain ⟨md, hmd⟩ := extract_ok content
  rw [hmd]
  rfl

/-- C10: an optional field present but equal to the empty string serializes
exactly like an absent optional field (Python falsiness of `""`), so the
structured text cannot distinguish the two. -/
theorem C10_empty_optional_like_absent (r : AgentResponse) :
    AgentResponse.to_markdown { r with questions := some "" } =
      AgentResponse.to_markdown { r with questions := none } ∧
    AgentResponse.to_markdown { r with notes := some "" } =
      AgentResponse.to_markdown { r with notes := none } := by
  constructor <;> simp [AgentResponse.to_markdown, truthy]

/-- C2 counterexample: with no credential configured and an agent id that is
absent from the (empty) registry, invoke reports ConfigurationError, not
NotFound — the credential check runs before the lookup, so an absent id is
NOT reported as NotFound when no credential is configured. -/
theorem C2_counterexample :
    invoke_agent (fun _ _ => Except.ok "text") ⟨[], false⟩ "ghost" "task" =
      .error .configError ∧
    (InvokeErr.configError ≠ InvokeErr.notFound "ghost") :=
  ⟨rfl, by decide⟩

/-- C2 amended: lookup-time errors propagate to the immediate caller of
invoke, and no network attempt is made for them (the result does not depend
on the generation oracle); but the two checks run in the order
credential-then-lookup: with no credential the call signals
ConfigurationError even for an absent id, and an absent id is reported as
NotFound exactly when a credential IS configured. -/
theorem C2_amended (gen gen' : GenFn) (m : Manager) (agentId task : String) :
    (m.hasClient = false → invoke_agent gen m agentId task = .error .configError) ∧
    (m.hasClient = true → dictGet m.agents agentId = none →
      invoke_agent gen m agentId task = .error (.notFound agentId)) ∧
    (dictGet m.agents agentId = none →
      invoke_agent gen m agentId task = invoke_agent gen' m agentId task) := by
  refine ⟨?_, ?_, ?_⟩
  · intro h
    simp [invoke_agent, h]
  · intro h1 h2
    simp [invoke_agent, h1, h2]
  · intro h2
    cases hc : m.hasClient with
    | false => simp [invoke_agent, hc]
    | true => simp [invoke_agent, hc, h2]

/-- C2 amended, witness instance: a configured credential and an absent id
produce NotFound. -/
theorem C2_amended_witness :
    (⟨[("a", "profile a")], true⟩ : Manager).hasClient = true ∧
    dictGet (⟨[("a", "profile a")], true⟩ : Manager).agents "ghost" = none ∧
    invoke_agent (fun _ _ => Except.ok "text") ⟨[("a", "profile a")], true⟩ "ghost" "task" =
      .error (.notFound "ghost") :=
  ⟨rfl, rfl,
    (C2_amended (fun _ _ => Except.ok "text") (fun _ _ => Except.ok "text")
      ⟨[("a", "profile a")], true⟩ "ghost" "task").2.1 rfl rfl⟩

/-- C6: invokeMany never raises and returns one entry per input id: each
input id maps to its per-agent outcome string (the generated text on
success, the inline `"Error: …"` string on any per-agent exception —
so one agent's failure never prevents the others from being attempted),
the result keys are distinct, and no key outside the input list appears. -/
theorem C6_invokeMany_total (gen : GenFn) (m : Manager) (agentIds : List String)
    (task : String) :
    (∀ aid ∈ agentIds,
      dictGet (invoke_multiple_agents gen m agentIds task) aid =
        some (resultStr gen m aid task)) ∧
    (∀ aid ∈ agentIds, ∀ r, invoke_agent gen m aid task = .ok r →
      dictGet (invoke_multiple_agents gen m agentIds task) aid = some r) ∧
    (∀ aid ∈ agentIds, ∀ e, invoke_agent gen m aid task = .error e →
      dictGet (invoke_multiple_agents gen m agentIds task) aid =
        some ("Error: " ++ errMsg e)) ∧
    (dictKeys (invoke_multiple_agents gen m agentIds task)).Nodup ∧
    (∀ k ∈ dictKeys (invoke_multiple_agents gen m agentIds task), k ∈ agentIds) := by
  have hget : ∀ aid ∈ agentIds,
      dictGet (invoke_multiple_agents gen m agentIds task) aid =
        some (resultStr gen m aid task) := by
    intro aid h
    exact batchFold_get (fun a => resultStr gen m a task) agentIds [] (by simp) aid h
  refine ⟨hget, ?_, ?_, ?_, ?_⟩
  · intro aid h r hr
    have hv : resultStr gen m aid task = r := by unfold resultStr; rw [hr]
    rw [hget aid h, hv]
  · intro aid h e he
    have hv : resultStr gen m aid task = "Error: " ++ errMsg e := by
      unfold resultStr; rw [he]
    rw [hget aid h, hv]
  · exact batchFold_nodup _ agentIds [] (by simp [dictKeys])
  · intro k h
    rcases batchFold_keys_sub _ agentIds [] k h with h1 | h1
    · simp [dictKeys] at h1
    · exact h1

/-- Oracle and manager used by the concrete witness instances. -/
def genW : GenFn := fun _ _ => Except.ok "generated text"

/-- Manager fixture for the witness instances: agents `a` and `lead` are
registered, a credential is configured. -/
def mW : Manager := ⟨[("a", "profile a"), ("lead", "profile lead")], true⟩

/-- C6 witness instance: a known id maps to generated text and an unknown
id maps to an inline error string, in the same returned map. -/
theorem C6_invokeMany_witness :
    dictGet (invoke_multiple_agents genW mW ["a", "missing"] "task") "a" =
      some "generated text" ∧
    dictGet (invoke_multiple_agents genW mW ["a", "missing"] "task") "missing" =
      some "Error: Agent not found: missing" :=
  ⟨(C6_invokeMany_total genW mW ["a", "missing"] "task").1 "a" (by simp),
   (C6_invokeMany_total genW mW ["a", "missing"] "task").1 "missing" (by simp)⟩

/-- C4 counterexample: a line matching the `Role:` label with exactly ONE
emphasis marker (fewer than two) does not leave the field absent: the
branch fires (Python `'**' in line` is already true with one marker) and
populates the role with the text before the marker. -/
theorem C4_counterexample :
    strContains "Role:** The Boss" "Role:" = true ∧
    (pySplit "Role:** The Boss" "**").length - 1 = 1 ∧
    (extract_agent_metadata "Role:** The Boss").map AgentMetadata.role =
      .ok (some "Role:") :=
  ⟨rfl, rfl, rfl⟩

/-- C4 amended: on a single-line input matching the `Role:` label,
extraction never fails, and: with ZERO emphasis markers the role field is
left absent; with exactly ONE emphasis marker the field is populated with
the text preceding the marker (`split('**')[-2]` is the first of the two
pieces) rather than left absent. -/
theorem C4_amended (line : String) (hline : pySplit line "\n" = [line])
    (hrole : strContains line "Role:" = true) :
    ((pySplit line "**").length = 1 →
      (extract_agent_metadata line).map AgentMetadata.role = .ok none) ∧
    ((pySplit line "**").length = 2 →
      (extract_agent_metadata line).map AgentMetadata.role =
        .ok (pySplit line "**").head?) := by
  have h1 : extract_agent_metadata line = extractStep [line] emptyMetadata 0 line := by
    unfold extract_agent_metadata
    rw [hline]
    simp [List.foldlM]
  constructor
  · intro hlen
    have hc : strContains line "**" = false := by simp [strContains, hlen]
    rw [h1]
    unfold extractStep
    simp only [hc, Bool.and_false, Bool.false_eq_true, if_false, ite_false]
    by_cases hp : strContains line "PERSONALITY" = true
    · simp [hp, emptyMetadata]
      rfl
    · simp [hp, emptyMetadata]
      rfl
  · intro hlen
    have hc : strContains line "**" = true := by simp [strContains, hlen]
    obtain ⟨a, b, hab⟩ := List.length_eq_two.mp hlen
    rw [h1]
    unfold extractStep
    simp [hc, hrole, pyIdxNeg2, pyIdx, hab]
    rfl

/-- C4 amended, witness instance: one emphasis marker populates the role
with the text before the marker. -/
theorem C4_amended_witness :
    pySplit "Role:** The Boss" "\n" = ["Role:** The Boss"] ∧
    strContains "Role:** The Boss" "Role:" = true ∧
    (pySplit "Role:** The Boss" "**").length = 2 ∧
    (extract_agent_metadata "Role:** The Boss").map AgentMetadata.role =
      .ok (pySplit "Role:** The Boss" "**").head? :=
  ⟨rfl, rfl, rfl, (C4_amended "Role:** The Boss" rfl rfl).2 rfl⟩

/-- Store with the same filename in two phase directories, both readable. -/
def storeC1 : Store := fun p =>
  match p with
  | .planning => [⟨"shared.md", "planning profile", true⟩]
  | .development => [⟨"shared.md", "development profile", true⟩]
  | _ => []

/-- C1 counterexample: with `shared.md` present in both planning and
development, the full scan leaves the catalog record (phase, path, raw
text) of the EARLIER-scanned phase (planning), not of the later-scanned
phase (development): the per-file loader re-searches the phases from the
start, so the later iteration re-reads the planning copy.  The registry
list moreover holds two entries for the id. -/
theorem C1_counterexample :
    (load_all_agents storeC1).state.agentsDict =
      [("shared.md", ⟨"planning/shared.md", .planning, "planning profile"⟩)] ∧
    (load_all_agents storeC1).agents = [("shared", "planning profile")] ∧
    (load_all_agents storeC1).state.registry =
      [⟨"shared", "shared.md", .planning, "planning/shared.md"⟩,
       ⟨"shared", "shared.md", .development, "development/shared.md"⟩] ∧
    Phase.planning ≠ Phase.development :=
  ⟨rfl, rfl, rfl, by decide⟩

/-- C1 amended: in an all-readable store in which two distinct phase
directories contain a file with the same filename, the catalog
(`self.agents`) holds exactly one record per filename (keys are distinct),
and that record's phase, path and raw text are those of the FIRST phase in
the fixed scan order that contains the filename — the earlier-scanned
phase, not the later one. -/
theorem C1_amended_first_match_wins (store : Store) (fn : String) (p1 p2 : Phase)
    (hr : ∀ p f, f ∈ store p → f.readable = true)
    (_hne : p1 ≠ p2)
    (h1 : ∃ f ∈ store p1, f.name = fn)
    (_h2 : ∃ f ∈ store p2, f.name = fn) :
    (dictKeys (load_all_agents store).state.agentsDict).Nodup ∧
    dictGet (load_all_agents store).state.agentsDict fn = firstData store fn ∧
    ∃ q g, firstMatch store fn = some (q, g) ∧
      ∃ l r, phaseOrder = l ++ q :: r ∧ ∀ p' ∈ l, findFile (store p') fn = none := by
  obtain ⟨f, hf, hfn⟩ := h1
  have hfind : (findFile (store p1) fn).isSome := by
    unfold findFile
    rw [List.find?_isSome]
    exact ⟨f, hf, by simp [hfn]⟩
  obtain ⟨g, hg⟩ := Option.isSome_iff_exists.mp hfind
  have hok : scanOk store fn = true := scanOk_of_readable store fn p1 g hr hg
  refine ⟨(load_all_dictInv store).1, ?_, ?_⟩
  · have := load_all_agentsDict_get store p1 f hf (by rw [hfn]; exact hok)
    rw [hfn] at this
    exact this
  · unfold scanOk at hok
    cases hm : firstMatch store fn with
    | none => rw [hm] at hok; simp at hok
    | some qg =>
      obtain ⟨q, g'⟩ := qg
      obtain ⟨hq, l, r, hps, hl⟩ := searchPhases_decomp store fn phaseOrder q g' hm
      exact ⟨q, g', rfl, l, r, hps, hl⟩

/-- C1 amended, witness instance: the catalog record of the duplicated
filename is the planning (first-match) record. -/
theorem C1_amended_witness :
    dictGet (load_all_agents storeC1).state.agentsDict "shared.md" =
      firstData storeC1 "shared.md" ∧
    firstData storeC1 "shared.md" =
      some ⟨"planning/shared.md", .planning, "planning profile"⟩ :=
  ⟨(C1_amended_first_match_wins storeC1 "shared.md" .planning .development
      (by intro p f hf; cases p <;> simp_all [storeC1])
      (by decide)
      ⟨⟨"shared.md", "planning profile", true⟩, by simp [storeC1], rfl⟩
      ⟨⟨"shared.md", "development profile", true⟩, by simp [storeC1], rfl⟩).2.1,
   rfl⟩

/-- Number of readable profile files across the five phase directories:
the quantity the original claim compares the registry length against. -/
def readableFileCount (store : Store) : Nat :=
  (phaseOrder.map (fun p => ((store p).filter (fun f => f.readable)).length)).sum

/-- Store with an unreadable planning copy shadowing a readable development
copy of the same filename. -/
def storeC5 : Store := fun p =>
  match p with
  | .planning => [⟨"dup.md", "unreadable planning copy", false⟩]
  | .development => [⟨"dup.md", "readable development copy", true⟩]
  | _ => []

/-- C5 counterexample: one readable profile file exists, yet the scan
produces an empty registry — the per-file loader always re-searches the
phases from the start, finds the unreadable planning copy first, and fails
for BOTH directory entries, so the readable development copy is never
loaded. -/
theorem C5_counterexample :
    readableFileCount storeC5 = 1 ∧
    (load_all_agents storeC5).state.registry.length = 0 :=
  ⟨rfl, rfl⟩

/-- C5 amended: a full scan produces a registry with one entry per globbed
file whose filename's FIRST match across the five phase directories (in
the fixed order) is readable — this equals the readable-file count
whenever no filename is shadowed by an unreadable earlier-phase copy (in
particular in any all-readable store) — and filterByPhase partitions the
registry exactly by phase with no overlaps and insertion order preserved:
the five filtered lengths sum to the registry length, every filter result
is an order-preserving sublist of the registry, and its members all carry
the filtered phase. -/
theorem C5_amended_scan_partition (store : Store) :
    (load_all_agents store).state.registry.length =
      (phaseOrder.map
        (fun p => ((store p).filter (fun f => scanOk store f.name)).length)).sum ∧
    (phaseOrder.map
      (fun p => (get_agent_by_phase (load_all_agents store).state p).length)).sum =
      (load_all_agents store).state.registry.length ∧
    (∀ p, (get_agent_by_phase (load_all_agents store).state p).Sublist
      (load_all_agents store).state.registry) ∧
    (∀ p, ∀ e ∈ get_agent_by_phase (load_all_agents store).state p, e.phase = p) := by
  refine ⟨load_all_reg_len store, filter_phase_partition _, ?_, ?_⟩
  · intro p
    exact List.filter_sublist _
  · intro p e he
    have := List.of_mem_filter he
    exact of_decide_eq_true this

/-- C5 amended, witness instance: on the shadowed store the registry length
equals the first-match-readable count (zero), and the phase filters
partition it. -/
theorem C5_amended_witness :
    (load_all_agents storeC5).state.registry.length =
      (phaseOrder.map
        (fun p => ((storeC5 p).filter (fun f => scanOk storeC5 f.name)).length)).sum ∧
    (phaseOrder.map
      (fun p => (get_agent_by_phase (load_all_agents storeC5).state p).length)).sum =
      (load_all_agents storeC5).state.registry.length :=
  ⟨(C5_amended_scan_partition storeC5).1, (C5_amended_scan_partition storeC5).2.1⟩

/-- C3: in every collaborativeTask call in which some supporting agent
succeeds and another fails, the attempt trace is exactly the supporting
ids in input order (each attempted with the original task) followed by a
single primary attempt carrying the combined text; the primary attempt
occurs exactly once; and the combined text contains each successful
supporting response verbatim and each failing agent's inline error
string. -/
theorem C3_collaborative_gather_then_primary (gen : GenFn) (m : Manager) (primary : String)
    (supporting : List String) (task : String)
    (_hs : ∃ a ∈ supporting, exOk (invoke_agent gen m a task) = true)
    (_hf : ∃ b ∈ supporting, exOk (invoke_agent gen m b task) = false) :
    (collaborative_task_tr gen m primary supporting task).2 =
      supporting.map (fun a => (a, task)) ++
        [(primary, combinedTask task
          (collaborative_task_tr gen m primary supporting task).1.supporting_responses)] ∧
    (collaborative_task_tr gen m primary supporting task).2.count
      (primary, combinedTask task
        (collaborative_task_tr gen m primary supporting task).1.supporting_responses) = 1 ∧
    (∀ a ∈ supporting, ∀ r, invoke_agent gen m a task = .ok r →
      strContainsB (combinedTask task
        (collaborative_task_tr gen m primary supporting task).1.supporting_responses)
        r = true) ∧
    (∀ b ∈ supporting, ∀ e, invoke_agent gen m b task = .error e →
      strContainsB (combinedTask task
        (collaborative_task_tr gen m primary supporting task).1.supporting_responses)
        ("Error: " ++ errMsg e) = true) := by
  rcases hE : supporting.foldl
      (fun acc agentId =>
        (dictInsert acc.1 agentId (resultStr gen m agentId task), acc.2 ++ [(agentId, task)]))
      (([] : List (String × String)), ([] : List (String × String))) with ⟨sup, tr⟩
  have hsup : sup = supporting.foldl
      (fun acc a => dictInsert acc a (resultStr gen m a task)) [] := by
    have h := collabFold_fst (fun a => resultStr gen m a task) task supporting [] []
    rw [hE] at h
    exact h
  have htr : tr = supporting.map (fun a => (a, task)) := by
    have h := collabFold_snd (fun a => resultStr gen m a task) task supporting [] []
    rw [hE] at h
    simpa using h
  have hres : collaborative_task_tr gen m primary supporting task =
      ({ primary_agent := primary, supporting_agents := supporting, task := task,
         primary_response := some (resultStr gen m primary (combinedTask task sup)),
         supporting_responses := sup }, tr ++ [(primary, combinedTask task sup)]) := by
    unfold collaborative_task_tr
    rw [hE]
  have hcontains : ∀ a ∈ supporting,
      strContainsB (combinedTask task sup) (resultStr gen m a task) = true := by
    intro a ha
    have hget : dictGet sup a = some (resultStr gen m a task) := by
      rw [hsup]
      exact batchFold_get (fun x => resultStr gen m x task) supporting [] (by simp) a ha
    have hpair : (a, resultStr gen m a task) ∈ sup := dictGet_mem_pair _ _ _ hget
    have hmapped : ("Input from " ++ a ++ ":\n" ++ resultStr gen m a task) ∈
        sup.map (fun p => "Input from " ++ p.1 ++ ":\n" ++ p.2) :=
      List.mem_map_of_mem _ hpair
    obtain ⟨pre, post, hjoin⟩ := joinSep_mem_decomp "\n\n" _ _ hmapped
    have hx : combinedTask task sup =
        (task ++ "\n\nSupporting agent inputs:\n" ++
          (pre ++ ("Input from " ++ a ++ ":\n"))) ++
          resultStr gen m a task ++
          (post ++
            "\n\nPlease provide your response as the primary agent, integrating the supporting input.") := by
      unfold combinedTask supportingContext
      rw [hjoin]
      simp [strAppend_assoc]
    rw [hx]
    exact strContainsB_of_decomp _ _ _
  rw [hres]
  simp only []
  refine ⟨by rw [htr], ?_, ?_, ?_⟩
  · rw [List.count_append, htr]
    have hzero : (supporting.map (fun a => (a, task))).count
        (primary, combinedTask task sup) = 0 := by
      rw [List.count_eq_zero]
      intro hmem
      obtain ⟨a, -, heq⟩ := List.mem_map.mp hmem
      have : task = combinedTask task sup := (Prod.mk.injEq .. ▸ heq).2
      exact combinedTask_ne task sup this.symm
    rw [hzero]
    simp
  · intro a ha r hr
    have hv : resultStr gen m a task = r := by unfold resultStr; rw [hr]
    have := hcontains a ha
    rw [hv] at this
    exact this
  · intro b hb e he
    have hv : resultStr gen m b task = "Error: " ++ errMsg e := by
      unfold resultStr; rw [he]
    have := hcontains b hb
    rw [hv] at this
    exact this

/-- C3 witness instance: supporting agent `a` succeeds, `b` is unknown and
fails; the trace is both supporting attempts in order followed by the
single primary attempt with the combined text. -/
theorem C3_collaborative_witness :
    (∃ a ∈ ["a", "b"], exOk (invoke_agent genW mW a "task") = true) ∧
    (∃ b ∈ ["a", "b"], exOk (invoke_agent genW mW b "task") = false) ∧
    (collaborative_task_tr genW mW "lead" ["a", "b"] "task").2 =
      [("a", "task"), ("b", "task")] ++
        [("lead", combinedTask "task"
          (collaborative_task_tr genW mW "lead" ["a", "b"] "task").1.supporting_responses)] :=
  ⟨by decide, by decide,
    (C3_collaborative_gather_then_primary genW mW "lead" ["a", "b"] "task"
      (by decide) (by decide)).1⟩

/-- Containment from an explicit decomposition. -/
theorem strContainsB_of_eq (s pat l r : String) (h : s = l ++ pat ++ r) :
    strContainsB s pat = true := by
  rw [h]
  exact strContainsB_of_decomp pat l r

/-- The response serialization split into the mandatory block and the two
optional segments. -/
theorem respMd_split (r : AgentResponse) :
    r.to_markdown =
      ("=== AGENT RESPONSE ===\nFROM: " ++ r.from_agent ++ "\nTO: " ++ r.to_agent ++
        "\nSTATUS: " ++ r.status.val ++ "\nESTIMATED_COMPLETION: " ++
        r.estimated_completion) ++
      ((if truthy r.questions then "\nQUESTIONS: " ++ optVal r.questions else "") ++
        ((if truthy r.notes then "\nNOTES: " ++ optVal r.notes else "") ++
          "\n=== END RESPONSE ===")) := by
  unfold AgentResponse.to_markdown
  by_cases hq : truthy r.questions <;> by_cases hn : truthy r.notes <;>
    simp [hq, hn, strAppend_assoc, strAppend_empty, strEmpty_append]

/-- Response fixture whose from-field smuggles the literal `NOTES:`. -/
def respC7 : AgentResponse :=
  { from_agent := "NOTES: injected", to_agent := "bob", status := .accepted,
    estimated_completion := "3 hours", questions := none, notes := none }

/-- C7 counterexample: a response with no notes CAN still contain the
substring `NOTES:` — any mandatory field value is reproduced verbatim, so
a from-field containing `NOTES:` lands in the output even though no notes
line is rendered. -/
theorem C7_counterexample :
    respC7.notes = none ∧ strContainsB respC7.to_markdown "NOTES:" = true :=
  ⟨rfl, rfl⟩

/-- C7 amended: the structured-text serialization reproduces every
mandatory field value byte-identically (as a verbatim substring of the
output); when the optional fields are absent the corresponding lines are
omitted entirely (an absent-notes output differs from the same response
with notes present exactly by the absence of the NOTES line, and with both
optional fields absent the output is exactly the mandatory block); but the
output may still contain the substring `"NOTES:"` when some other field's
value contains it, so the absent-field guarantee is structural, not a
substring-freeness guarantee. -/
theorem C7_amended_roundtrip (req : AgentRequest) (resp : AgentResponse) (n : String)
    (hn : n ≠ "") :
    (strContainsB req.to_markdown req.from_agent = true ∧
     strContainsB req.to_markdown req.to_agent = true ∧
     strContainsB req.to_markdown req.priority.val = true ∧
     strContainsB req.to_markdown req.context = true ∧
     strContainsB req.to_markdown req.request = true ∧
     strContainsB req.to_markdown req.deliverable = true ∧
     strContainsB req.to_markdown req.timeline = true) ∧
    (strContainsB resp.to_markdown resp.from_agent = true ∧
     strContainsB resp.to_markdown resp.to_agent = true ∧
     strContainsB resp.to_markdown resp.status.val = true ∧
     strContainsB resp.to_markdown resp.estimated_completion = true) ∧
    AgentResponse.to_markdown { resp with questions := none, notes := none } =
      ("=== AGENT RESPONSE ===\nFROM: " ++ resp.from_agent ++ "\nTO: " ++ resp.to_agent ++
        "\nSTATUS: " ++ resp.status.val ++ "\nESTIMATED_COMPLETION: " ++
        resp.estimated_completion) ++ "\n=== END RESPONSE ===" ∧
    (∃ body, AgentResponse.to_markdown { resp with notes := none } =
        body ++ "\n=== END RESPONSE ===" ∧
      AgentResponse.to_markdown { resp with notes := some n } =
        (body ++ ("\nNOTES: " ++ n)) ++ "\n=== END RESPONSE ===") := by
  have htn : truthy (some n) = true := by simp [truthy, hn]
  refine ⟨⟨?_, ?_, ?_, ?_, ?_, ?_, ?_⟩, ⟨?_, ?_, ?_, ?_⟩, ?_, ?_⟩
  · exact strContainsB_of_eq _ _ "=== AGENT REQUEST ===\nFROM: "
      ("\nTO: " ++ req.to_agent ++ "\nPRIORITY: " ++ req.priority.val ++ "\nCONTEXT: " ++
        req.context ++ "\nREQUEST: " ++ req.request ++ "\nDELIVERABLE: " ++
        req.deliverable ++ "\nTIMELINE: " ++ req.timeline ++ "\n=== END REQUEST ===")
      (by unfold AgentRequest.to_markdown; simp [strAppend_assoc])
  · exact strContainsB_of_eq _ _
      ("=== AGENT REQUEST ===\nFROM: " ++ req.from_agent ++ "\nTO: ")
      ("\nPRIORITY: " ++ req.priority.val ++ "\nCONTEXT: " ++ req.context ++
        "\nREQUEST: " ++ req.request ++ "\nDELIVERABLE: " ++ req.deliverable ++
        "\nTIMELINE: " ++ req.timeline ++ "\n=== END REQUEST ===")
      (by unfold AgentRequest.to_markdown; simp [strAppend_assoc])
  · exact strContainsB_of_eq _ _
      ("=== AGENT REQUEST ===\nFROM: " ++ req.from_agent ++ "\nTO: " ++ req.to_agent ++
        "\nPRIORITY: ")
      ("\nCONTEXT: " ++ req.context ++ "\nREQUEST: " ++ req.request ++
        "\nDELIVERABLE: " ++ req.deliverable ++ "\nTIMELINE: " ++ req.timeline ++
        "\n=== END REQUEST ===")
      (by unfold AgentRequest.to_markdown; simp [strAppend_assoc])
  · exact strContainsB_of_eq _ _
      ("=== AGENT REQUEST ===\nFROM: " ++ req.from_agent ++ "\nTO: " ++ req.to_agent ++
        "\nPRIORITY: " ++ req.priority.val ++ "\nCONTEXT: ")
      ("\nREQUEST: " ++ req.request ++ "\nDELIVERABLE: " ++ req.deliverable ++
        "\nTIMELINE: " ++ req.timeline ++ "\n=== END REQUEST ===")
      (by unfold AgentRequest.to_markdown; simp [strAppend_assoc])
  · exact strContainsB_of_eq _ _
      ("=== AGENT REQUEST ===\nFROM: " ++ req.from_agent ++ "\nTO: " ++ req.to_agent ++
        "\nPRIORITY: " ++ req.priority.val ++ "\nCONTEXT: " ++ req.context ++
        "\nREQUEST: ")
      ("\nDELIVERABLE: " ++ req.deliverable ++ "\nTIMELINE: " ++ req.timeline ++
        "\n=== END REQUEST ===")
      (by unfold AgentRequest.to_markdown; simp [strAppend_assoc])
  · exact strContainsB_of_eq _ _
      ("=== AGENT REQUEST ===\nFROM: " ++ req.from_agent ++ "\nTO: " ++ req.to_agent ++
        "\nPRIORITY: " ++ req.priority.val ++ "\nCONTEXT: " ++ req.context ++
        "\nREQUEST: " ++ req.request ++ "\nDELIVERABLE: ")
      ("\nTIMELINE: " ++ req.timeline ++ "\n=== END REQUEST ===")
      (by unfold AgentRequest.to_markdown; simp [strAppend_assoc])
  · exact strContainsB_of_eq _ _
      ("=== AGENT REQUEST ===\nFROM: " ++ req.from_agent ++ "\nTO: " ++ req.to_agent ++
        "\nPRIORITY: " ++ req.priority.val ++ "\nCONTEXT: " ++ req.context ++
        "\nREQUEST: " ++ req.request ++ "\nDELIVERABLE: " ++ req.deliverable ++
        "\nTIMELINE: ")
      "\n=== END REQUEST ==="
      (by unfold AgentRequest.to_markdown; simp [strAppend_assoc])
  · exact strContainsB_of_eq _ _ "=== AGENT RESPONSE ===\nFROM: "
      ("\nTO: " ++ resp.to_agent ++ "\nSTATUS: " ++ resp.status.val ++
        "\nESTIMATED_COMPLETION: " ++ resp.estimated_completion ++
        ((if truthy resp.questions then "\nQUESTIONS: " ++ optVal resp.questions else "") ++
          ((if truthy resp.notes then "\nNOTES: " ++ optVal resp.notes else "") ++
            "\n=== END RESPONSE ===")))
      (by rw [respMd_split]; simp [strAppend_assoc])
  · exact strContainsB_of_eq _ _
      ("=== AGENT RESPONSE ===\nFROM: " ++ resp.from_agent ++ "\nTO: ")
      ("\nSTATUS: " ++ resp.status.val ++ "\nESTIMATED_COMPLETION: " ++
        resp.estimated_completion ++
        ((if truthy resp.questions then "\nQUESTIONS: " ++ optVal resp.questions else "") ++
          ((if truthy resp.notes then "\nNOTES: " ++ optVal resp.notes else "") ++
            "\n=== END RESPONSE ===")))
      (by rw [respMd_split]; simp [strAppend_assoc])
  · exact strContainsB_of_eq _ _
      ("=== AGENT RESPONSE ===\nFROM: " ++ resp.from_agent ++ "\nTO: " ++ resp.to_agent ++
        "\nSTATUS: ")
      ("\nESTIMATED_COMPLETION: " ++ resp.estimated_completion ++
        ((if truthy resp.questions then "\nQUESTIONS: " ++ optVal resp.questions else "") ++
          ((if truthy resp.notes then "\nNOTES: " ++ optVal resp.notes else "") ++
            "\n=== END RESPONSE ===")))
      (by rw [respMd_split]; simp [strAppend_assoc])
  · exact strContainsB_of_eq _ _
      ("=== AGENT RESPONSE ===\nFROM: " ++ resp.from_agent ++ "\nTO: " ++ resp.to_agent ++
        "\nSTATUS: " ++ resp.status.val ++ "\nESTIMATED_COMPLETION: ")
      ((if truthy resp.questions then "\nQUESTIONS: " ++ optVal resp.questions else "") ++
        ((if truthy resp.notes then "\nNOTES: " ++ optVal resp.notes else "") ++
          "\n=== END RESPONSE ==="))
      (by rw [respMd_split]; try simp [strAppend_assoc])
  · rw [respMd_split]
    simp [truthy, strAppend_assoc, strEmpty_append]
  · refine ⟨("=== AGENT RESPONSE ===\nFROM: " ++ resp.from_agent ++ "\nTO: " ++
        resp.to_agent ++ "\nSTATUS: " ++ resp.status.val ++ "\nESTIMATED_COMPLETION: " ++
        resp.estimated_completion) ++
        (if truthy resp.questions then "\nQUESTIONS: " ++ optVal resp.questions else ""),
      ?_, ?_⟩
    · rw [respMd_split]
      simp [truthy, strAppend_assoc, strEmpty_append]
    · rw [respMd_split]
      simp [htn, optVal, strAppend_assoc]

/-- C7 amended, witness instance. -/
theorem C7_amended_witness :
    ("a note" ≠ "") ∧
    strContainsB (AgentRequest.to_markdown
      ⟨"alice", "bob", .high, "ctx", "do it", "patch", "eod"⟩) "ctx" = true :=
  ⟨by decide,
    (C7_amended_roundtrip ⟨"alice", "bob", .high, "ctx", "do it", "patch", "eod"⟩
      ⟨"bob", "alice", .accepted, "3 hours", none, none⟩ "a note"
      (by decide)).1.2.2.2.1⟩
